import Mathlib

/-!
Verification of the upload orchestration engine of `mapilio_kit/uploader.py`
against its natural-language specification.

The definitions below are a shallow embedding of the Python source:
pure functions become Lean functions, the retry loop becomes a recursive
function over a script of attempt outcomes, machine behaviour such as
Python `dict` (insertion-ordered, overwriting) and `os.path` string
manipulation is translated faithfully.  External collaborators that are
not part of the repository (the EXIF byte transform, the JSON-schema
checker, the filesystem, the chunked upload service) are modelled as
explicit oracle parameters.
-/

/-! ### JSON values and Python dictionary access

`requests.Response.json()` may return any JSON value.  `dict.get` is only
defined on objects; calling it on any other value raises `AttributeError`,
which we model with `Except Unit`. -/

/-- A JSON value, as returned by `ex.response.json()` in
`uploader.py:is_retriable_exception`. -/
inductive JVal where
  | jbool (b : Bool)
  | jnum (n : Int)
  | jstr (s : String)
  | jnull
  | jarr (xs : List JVal)
  | jobj (fields : List (String × JVal))

/-- Python `v.get(k, dflt)`: defined on dictionaries only; on any other
value it raises `AttributeError` (modelled as `Except.error ()`). -/
def pyGet (v : JVal) (k : String) (dflt : JVal) : Except Unit JVal :=
  match v with
  | .jobj fields => .ok ((fields.lookup k).getD dflt)
  | _ => .error ()

/-- Python truthiness of a JSON value (`bool(v)`). -/
def truthy : JVal → Bool
  | .jbool b => b
  | .jnum n => n != 0
  | .jstr s => s != ""
  | .jnull => false
  | .jarr xs => !xs.isEmpty
  | .jobj fs => !fs.isEmpty

/-- The exceptions that can reach the `except` handler of the upload loop
in `uploader.py:_upload_zipfile_fp`.  For an HTTP error, `body = none`
models a response body that is not valid JSON (`response.json()` raises
`json.JSONDecodeError`), and `body = some j` models a body parsing to the
JSON value `j`. -/
inductive UploadException where
  | connectionError
  | timeout
  | httpError (status : Nat) (body : Option JVal)
  | otherException

/-- Embedding of `uploader.py:is_retriable_exception` (lines 267-281).
The result is `Except.error ()` when the Python function itself raises
(`.get` applied to a non-dict), and `Except.ok v` when it returns the
value `v` (the caller then tests `v` for truthiness). -/
def is_retriable_exception (ex : UploadException) : Except Unit JVal :=
  match ex with
  | .connectionError => .ok (.jbool true)
  | .timeout => .ok (.jbool true)
  | .httpError status body =>
    if 400 ≤ status ∧ status < 500 then
      match body with
      | none => .ok (.jbool false)
      | some resp =>
        match pyGet resp "debug_info" (.jobj []) with
        | .error e => .error e
        | .ok debugInfo => pyGet debugInfo "retriable" (.jbool false)
    else .ok (.jbool true)
  | .otherException => .ok (.jbool false)

/-- The retriability condition exactly as the specification words it:
network connectivity or timeout errors, HTTP 5xx, or HTTP 4xx whose JSON
body contains a nested `retriable` flag that is the JSON value `true`. -/
def specRetriableCond (ex : UploadException) : Bool :=
  match ex with
  | .connectionError => true
  | .timeout => true
  | .httpError status body =>
    if 500 ≤ status ∧ status < 600 then true
    else if 400 ≤ status ∧ status < 500 then
      match body with
      | none => false
      | some (.jobj fields) =>
        match fields.lookup "debug_info" with
        | some (.jobj di) =>
          match di.lookup "retriable" with
          | some (.jbool true) => true
          | _ => false
        | _ => false
      | some _ => false
    else false
  | .otherException => false

/-- Condition under which `is_retriable_exception` itself raises
`AttributeError`: a 4xx HTTP error whose JSON body is not an object, or
is an object whose `debug_info` member is present but not an object. -/
def classifierRaises (ex : UploadException) : Bool :=
  match ex with
  | .httpError status (some resp) =>
    if 400 ≤ status ∧ status < 500 then
      match resp with
      | .jobj fields =>
        match fields.lookup "debug_info" with
        | some (.jobj _) => false
        | some _ => true
        | none => false
      | _ => true
    else false
  | _ => false

/-- The verdict `is_retriable_exception` actually produces when it does
not raise: connectivity/timeout, or an HTTP error with status outside the
4xx range, or a 4xx whose JSON object body carries an object `debug_info`
whose `retriable` member is truthy. -/
def classifierRetriable (ex : UploadException) : Bool :=
  match ex with
  | .connectionError => true
  | .timeout => true
  | .httpError status body =>
    if 400 ≤ status ∧ status < 500 then
      match body with
      | none => false
      | some (.jobj fields) =>
        match fields.lookup "debug_info" with
        | some (.jobj di) =>
          match di.lookup "retriable" with
          | some v => truthy v
          | none => false
        | _ => false
      | some _ => false
    else true
  | .otherException => false

/-- C1 (counterexample): for a 4xx HTTP error whose body parses to the
JSON array `[]`, the claim demands a fatal classification, but
`is_retriable_exception` raises `AttributeError` (calling `.get` on a
list) instead of returning any verdict. -/
theorem c1_counterexample :
    is_retriable_exception (.httpError 404 (some (.jarr []))) = .error () ∧
    specRetriableCond (.httpError 404 (some (.jarr []))) = false := by
  constructor <;> rfl

/-- C1 (amended): the classifier raises exactly on 4xx responses whose
JSON body is a non-object (or has a non-object `debug_info`); whenever it
does not raise, the verdict it returns is truthy exactly for connectivity
and timeout errors, HTTP errors with status outside the 4xx range, and
4xx errors whose JSON object body has an object `debug_info` with a
truthy `retriable` member.  On the spec's intended domain (bodies that
are objects with boolean flags) this coincides with the spec condition. -/
theorem c1_classifier_characterization (ex : UploadException) :
    (is_retriable_exception ex = .error () ↔ classifierRaises ex = true) ∧
    (∀ v, is_retriable_exception ex = .ok v → truthy v = classifierRetriable ex) := by
  cases ex with
  | connectionError => exact ⟨by simp [is_retriable_exception, classifierRaises],
      fun v hv => by cases hv; rfl⟩
  | timeout => exact ⟨by simp [is_retriable_exception, classifierRaises],
      fun v hv => by cases hv; rfl⟩
  | otherException => exact ⟨by simp [is_retriable_exception, classifierRaises],
      fun v hv => by cases hv; rfl⟩
  | httpError status body =>
    by_cases hs : 400 ≤ status ∧ status < 500
    · cases body with
      | none =>
        refine ⟨by simp [is_retriable_exception, classifierRaises, hs], fun v hv => ?_⟩
        simp only [is_retriable_exception, if_pos hs, Except.ok.injEq] at hv
        subst hv
        simp [classifierRetriable, hs, truthy]
      | some resp =>
        cases resp with
        | jobj fields =>
          cases hdi : fields.lookup "debug_info" with
          | none =>
            refine ⟨by simp [is_retriable_exception, classifierRaises, hs, pyGet, hdi],
              fun v hv => ?_⟩
            simp only [is_retriable_exception, if_pos hs, pyGet, hdi, Option.getD,
              List.lookup, Except.ok.injEq] at hv
            subst hv
            simp [classifierRetriable, hs, hdi, truthy]
          | some di =>
            cases di with
            | jobj difields =>
              refine ⟨by simp [is_retriable_exception, classifierRaises, hs, pyGet, hdi],
                fun v hv => ?_⟩
              simp only [is_retriable_exception, if_pos hs, pyGet, hdi, Option.getD_some,
                Except.ok.injEq] at hv
              subst hv
              simp only [classifierRetriable, if_pos hs, hdi]
              cases hr : difields.lookup "retriable" with
              | none => simp [hr, truthy]
              | some v' => simp [hr]
            | jbool b => exact ⟨by simp [is_retriable_exception, classifierRaises, hs,
                pyGet, hdi], fun v hv => by
                  simp [is_retriable_exception, if_pos hs, pyGet, hdi] at hv⟩
            | jnum n => exact ⟨by simp [is_retriable_exception, classifierRaises, hs,
                pyGet, hdi], fun v hv => by
                  simp [is_retriable_exception, if_pos hs, pyGet, hdi] at hv⟩
            | jstr s => exact ⟨by simp [is_retriable_exception, classifierRaises, hs,
                pyGet, hdi], fun v hv => by
                  simp [is_retriable_exception, if_pos hs, pyGet, hdi] at hv⟩
            | jnull => exact ⟨by simp [is_retriable_exception, classifierRaises, hs,
                pyGet, hdi], fun v hv => by
                  simp [is_retriable_exception, if_pos hs, pyGet, hdi] at hv⟩
            | jarr xs => exact ⟨by simp [is_retriable_exception, classifierRaises, hs,
                pyGet, hdi], fun v hv => by
                  simp [is_retriable_exception, if_pos hs, pyGet, hdi] at hv⟩
        | jbool b => exact ⟨by simp [is_retriable_exception, classifierRaises, hs, pyGet],
            fun v hv => by simp [is_retriable_exception, if_pos hs, pyGet] at hv⟩
        | jnum n => exact ⟨by simp [is_retriable_exception, classifierRaises, hs, pyGet],
            fun v hv => by simp [is_retriable_exception, if_pos hs, pyGet] at hv⟩
        | jstr s => exact ⟨by simp [is_retriable_exception, classifierRaises, hs, pyGet],
            fun v hv => by simp [is_retriable_exception, if_pos hs, pyGet] at hv⟩
        | jnull => exact ⟨by simp [is_retriable_exception, classifierRaises, hs, pyGet],
            fun v hv => by simp [is_retriable_exception, if_pos hs, pyGet] at hv⟩
        | jarr xs => exact ⟨by simp [is_retriable_exception, classifierRaises, hs, pyGet],
            fun v hv => by simp [is_retriable_exception, if_pos hs, pyGet] at hv⟩
    · refine ⟨?_, fun v hv => ?_⟩
      · cases body with
        | none => simp [is_retriable_exception, classifierRaises, hs]
        | some resp => simp [is_retriable_exception, classifierRaises, hs]
      · simp only [is_retriable_exception, if_neg hs, Except.ok.injEq] at hv
        subst hv
        simp [classifierRetriable, hs, truthy]

/-- C1 (witness): the characterization applied at a timeout (no raise,
retriable verdict) and at a 4xx with an array body (raise). -/
theorem c1_classifier_characterization_witness :
    truthy (.jbool true) = classifierRetriable .timeout ∧
    is_retriable_exception (.httpError 404 (some (.jarr []))) = .error () := by
  constructor
  · exact (c1_classifier_characterization .timeout).2 (.jbool true) rfl
  · exact (c1_classifier_characterization (.httpError 404 (some (.jarr [])))).1.mpr rfl

/-! ### The resumable upload retry loop

`_upload_zipfile_fp` (lines 321-370) runs `while True`: each iteration
re-seeks the file, re-queries the server resume offset, registers the
per-chunk callbacks (`update_pbar`, `_reset_retries`, and the notifier)
and calls `upload_service.upload`.  We model one iteration as consuming
one `AttemptOutcome` from a script: either the attempt succeeds with a
hash, or it raises an exception after `chunksAccepted` per-chunk
callbacks have fired (each of which runs `_reset_retries`, setting the
closure variable `retries` back to `0`). -/

/-- Outcome of one iteration of the `while True` loop (one
`fetch_offset` + `upload` round trip). -/
inductive AttemptOutcome where
  | success (hash : String)
  | failure (chunksAccepted : Nat) (ex : UploadException)

/-- How the loop in `_upload_zipfile_fp` ends. -/
inductive LoopResult where
  | success (hash : String)
  | raised (wrapped : Bool) (ex : UploadException)
  | classifierError (ex : UploadException)
  | outOfScript (retries : Nat)

/-- True for the exceptions `requests.HTTPError` matches (wrapped by
`wrap_http_exception` before re-raising). -/
def isHTTPError : UploadException → Bool
  | .httpError _ _ => true
  | _ => false

/-- A trace of the loop in `_upload_zipfile_fp`: its final result, the
number of attempts performed, and the backoff sleeps executed in order. -/
structure LoopTrace where
  result : LoopResult
  attempts : Nat
  sleeps : List Nat

/-- Embedding of the `while True` loop of `_upload_zipfile_fp`
(lines 321-370), driven by a finite script of attempt outcomes.
State carried between iterations: the closure variable `retries`
(reset to `0` by the `_reset_retries` callback on every accepted chunk,
incremented in the handler before `time.sleep(min(2 ** retries, 16))`),
plus the instrumentation counters of the trace.  An empty script while
the loop still wants to iterate yields `LoopResult.outOfScript`. -/
def runUploadLoop (retries attempts : Nat) (sleeps : List Nat) :
    List AttemptOutcome → LoopTrace
  | [] => ⟨.outOfScript retries, attempts, sleeps⟩
  | .success h :: _ => ⟨.success h, attempts + 1, sleeps⟩
  | .failure chunks ex :: rest =>
    let r := if 0 < chunks then 0 else retries
    if r < 200 then
      match is_retriable_exception ex with
      | .error _ => ⟨.classifierError ex, attempts + 1, sleeps⟩
      | .ok v =>
        if truthy v then
          runUploadLoop (r + 1) (attempts + 1) (sleeps ++ [min (2 ^ (r + 1)) 16]) rest
        else
          ⟨.raised (isHTTPError ex) ex, attempts + 1, sleeps⟩
    else ⟨.raised (isHTTPError ex) ex, attempts + 1, sleeps⟩

set_option maxRecDepth 10000 in
/-- C2: a retriable failure with the counter below 200 increments the
counter, records a sleep of `min(2^attempts, 16)` seconds and retries the
whole attempt (the recursion consumes the next script entry, i.e. the
next `fetch_offset`/`upload` round trip); with the counter at 200 the
loop raises at once (without consulting the classifier); a fatal failure
below the ceiling raises at once, wrapping HTTP errors; and a script of
201 consecutive retriable failures ends with the original exception
raised on the 201st attempt, after 200 sleeps, regardless of what the
script would offer afterwards. -/
theorem c2_retry_loop :
    (∀ (r a : Nat) (s : List Nat) (ex : UploadException) (v : JVal)
        (rest : List AttemptOutcome),
      r < 200 → is_retriable_exception ex = .ok v → truthy v = true →
      runUploadLoop r a s (.failure 0 ex :: rest) =
        runUploadLoop (r + 1) (a + 1) (s ++ [min (2 ^ (r + 1)) 16]) rest) ∧
    (∀ (a : Nat) (s : List Nat) (ex : UploadException) (ch : Nat)
        (rest : List AttemptOutcome),
      runUploadLoop 200 a s (.failure ch ex :: rest) =
        ⟨.raised (isHTTPError ex) ex, a + 1, s⟩ ∨ 0 < ch) ∧
    (∀ (r a : Nat) (s : List Nat) (ex : UploadException) (v : JVal)
        (rest : List AttemptOutcome),
      r < 200 → is_retriable_exception ex = .ok v → truthy v = false →
      runUploadLoop r a s (.failure 0 ex :: rest) =
        ⟨.raised (isHTTPError ex) ex, a + 1, s⟩) ∧
    (∀ rest : List AttemptOutcome,
      runUploadLoop 0 0 []
          (List.replicate 201 (.failure 0 .connectionError) ++ rest) =
        ⟨.raised false .connectionError, 201,
          (List.range 200).map (fun i => min (2 ^ (i + 1)) 16)⟩) := by
  refine ⟨?_, ?_, ?_, ?_⟩
  · intro r a s ex v rest hr hok htr
    simp [runUploadLoop, hr, hok, htr]
  · intro a s ex ch rest
    by_cases hch : 0 < ch
    · exact Or.inr hch
    · left
      simp [runUploadLoop, hch]
  · intro r a s ex v rest hr hok htr
    simp [runUploadLoop, hr, hok, htr]
  · intro rest
    rfl

/-- C2 (witness): the three conditional parts applied at concrete inputs:
a first-failure timeout retries with a 2-second sleep, the 200-counter
ceiling raises a wrapped 500 error, and an unflagged 404 is fatal at
counter 3. -/
theorem c2_retry_loop_witness :
    runUploadLoop 0 0 [] [.failure 0 .timeout] =
      runUploadLoop 1 1 [min 2 16] [] ∧
    (runUploadLoop 200 5 [16] [.failure 0 (.httpError 500 none)] =
      ⟨.raised true (.httpError 500 none), 6, [16]⟩ ∨ 0 < 0) ∧
    runUploadLoop 3 3 [] [.failure 0 (.httpError 404 none)] =
      ⟨.raised true (.httpError 404 none), 4, []⟩ := by
  refine ⟨?_, ?_, ?_⟩
  · have h := c2_retry_loop.1 0 0 [] .timeout (.jbool true) []
      (by decide) rfl rfl
    simpa using h
  · exact c2_retry_loop.2.1 5 [16] (.httpError 500 none) 0 []
  · exact c2_retry_loop.2.2.1 3 3 [] (.httpError 404 none) (.jbool false) []
      (by decide) rfl rfl

/-- An attempt outcome that either succeeds or fails retriably after at
least one accepted chunk (forward progress before the failure). -/
def progressingAttempt : AttemptOutcome → Bool
  | .success _ => true
  | .failure chunks ex =>
    decide (0 < chunks) &&
      match is_retriable_exception ex with
      | .ok v => truthy v
      | .error _ => false

/-- True exactly when the loop ended by propagating an exception. -/
def loopRaised : LoopResult → Bool
  | .raised _ _ => true
  | .classifierError _ => true
  | _ => false

/-- C3: whenever any per-chunk callback fired during a failing attempt,
`_reset_retries` has set the counter to zero, so the failure handler
behaves exactly as if the accumulated counter were zero; consequently a
script in which every failure is retriable and comes after forward
progress never propagates an exception, whatever the starting counter
and however long the script. -/
theorem c3_progress_resets_retries :
    (∀ (r a : Nat) (s : List Nat) (ch : Nat) (ex : UploadException)
        (rest : List AttemptOutcome), 0 < ch →
      runUploadLoop r a s (.failure ch ex :: rest) =
        runUploadLoop 0 a s (.failure ch ex :: rest)) ∧
    (∀ (script : List AttemptOutcome) (r a : Nat) (s : List Nat),
      (∀ x ∈ script, progressingAttempt x = true) →
      loopRaised (runUploadLoop r a s script).result = false) := by
  constructor
  · intro r a s ch ex rest hch
    simp [runUploadLoop, hch]
  · intro script
    induction script with
    | nil => intro r a s _; simp [runUploadLoop, loopRaised]
    | cons x rest ih =>
      intro r a s hall
      have hx := hall x (List.mem_cons_self x rest)
      have hrest : ∀ y ∈ rest, progressingAttempt y = true :=
        fun y hy => hall y (List.mem_cons_of_mem x hy)
      cases x with
      | success h => simp [runUploadLoop, loopRaised]
      | failure chunks ex =>
        simp only [progressingAttempt, Bool.and_eq_true, decide_eq_true_eq] at hx
        obtain ⟨hch, hcl⟩ := hx
        cases hok : is_retriable_exception ex with
        | error e => rw [hok] at hcl; exact absurd hcl (by simp)
        | ok v =>
          rw [hok] at hcl
          simp only [runUploadLoop, if_pos hch, hok]
          rw [if_pos (by decide : (0 : Nat) < 200), if_pos hcl]
          exact ih _ _ _ hrest

/-- C3 (witness): the reset step applied at a concrete progressing
failure, and a concrete 300-failure all-progressing script that never
raises from a starting counter of 199. -/
theorem c3_progress_resets_retries_witness :
    runUploadLoop 199 0 [] [.failure 2 .timeout] =
      runUploadLoop 0 0 [] [.failure 2 .timeout] ∧
    loopRaised (runUploadLoop 199 0 []
      (List.replicate 300 (.failure 1 .connectionError))).result = false := by
  constructor
  · exact c3_progress_resets_retries.1 199 0 [] 2 .timeout [] (by decide)
  · refine c3_progress_resets_retries.2 _ 199 0 [] ?_
    intro x hx
    have := List.eq_of_mem_replicate hx
    subst this
    rfl

/-! ### The common-root resolver `_find_root_dir`

`_find_root_dir` (lines 29-41) maps `os.path.dirname` over the path set,
returns `None` on an empty set, the unique element on a singleton, and
otherwise recurses on the set of parents.  The Python recursion is not
structurally decreasing for arbitrary strings (absolute all-slash paths
are fixed points of `dirname`), so the embedding is fuel-indexed; the
fuel `sumLen l + 1` is proved sufficient for relative paths. -/

/-- `posixpath.dirname` on a character list: keep everything up to and
including the final slash, then strip trailing slashes unless the kept
part consists of slashes only. -/
def dirnameAux (cs : List Char) : List Char :=
  let hrev := cs.reverse.dropWhile (fun c => c != '/')
  if hrev.reverse ≠ [] ∧ hrev.reverse.all (fun c => c == '/') then hrev.reverse
  else (hrev.dropWhile (fun c => c == '/')).reverse

/-- Embedding of `os.path.dirname` for POSIX paths. -/
def dirname (p : String) : String := ⟨dirnameAux p.data⟩

/-- A path that does not start with a slash (a relative POSIX path). -/
def relPath (p : String) : Prop := p.data.head? ≠ some '/'

instance (p : String) : Decidable (relPath p) := by
  unfold relPath; infer_instance

/-- Total length of a list of strings, the termination measure for the
root-resolver recursion. -/
def sumLen (l : List String) : Nat := (l.map String.length).sum

/-- Fuel-indexed embedding of `_find_root_dir`: the Python set of
dirnames becomes the deduplicated list of dirnames, `some none` models
returning `None`, `some (some d)` returning `d`, and `none` models
running out of fuel (unbounded recursion in the Python original). -/
def findRootDirAux : Nat → List String → Option (Option String)
  | 0, _ => none
  | fuel + 1, fileList =>
    match (fileList.map dirname).dedup with
    | [] => some none
    | [d] => some (some d)
    | d1 :: d2 :: rest => findRootDirAux fuel (d1 :: d2 :: rest)

/-- `_find_root_dir`, run with provably sufficient fuel for the inputs
its callers supply. -/
def find_root_dir (fileList : List String) : Option (Option String) :=
  findRootDirAux (sumLen fileList + 1) fileList

theorem dropWhile_length_le {α} (q : α → Bool) :
    ∀ l : List α, (l.dropWhile q).length ≤ l.length := by
  intro l
  induction l with
  | nil => simp
  | cons a l ih =>
    by_cases h : q a
    · simp only [List.dropWhile_cons, h, if_true]
      exact Nat.le_succ_of_le ih
    · simp [List.dropWhile_cons, h]

theorem dropWhile_head_false {α} (q : α → Bool) :
    ∀ (l : List α) (c : α) (t : List α), l.dropWhile q = c :: t → q c = false := by
  intro l
  induction l with
  | nil => intro c t h; simp at h
  | cons a l ih =>
    intro c t h
    by_cases ha : q a
    · rw [List.dropWhile_cons, if_pos ha] at h
      exact ih c t h
    · rw [List.dropWhile_cons, if_neg ha] at h
      cases h
      exact Bool.eq_false_iff.mpr ha

/-- The result of `dirnameAux` is an initial segment of its input. -/
theorem dirnameAux_append (cs : List Char) : ∃ rest, cs = dirnameAux cs ++ rest := by
  unfold dirnameAux
  have hsplit : cs.reverse.takeWhile (fun c => c != '/') ++
      cs.reverse.dropWhile (fun c => c != '/') = cs.reverse :=
    List.takeWhile_append_dropWhile _ _
  by_cases hb : (cs.reverse.dropWhile (fun c => c != '/')).reverse ≠ [] ∧
      (cs.reverse.dropWhile (fun c => c != '/')).reverse.all (fun c => c == '/')
  · refine ⟨(cs.reverse.takeWhile (fun c => c != '/')).reverse, ?_⟩
    rw [if_pos hb]
    calc cs = cs.reverse.reverse := (List.reverse_reverse cs).symm
    _ = (cs.reverse.takeWhile (fun c => c != '/') ++
          cs.reverse.dropWhile (fun c => c != '/')).reverse := by rw [hsplit]
    _ = _ := by rw [List.reverse_append]
  · rw [if_neg hb]
    have hsplit2 : (cs.reverse.dropWhile (fun c => c != '/')).takeWhile (fun c => c == '/') ++
        (cs.reverse.dropWhile (fun c => c != '/')).dropWhile (fun c => c == '/') =
        cs.reverse.dropWhile (fun c => c != '/') :=
      List.takeWhile_append_dropWhile _ _
    refine ⟨((cs.reverse.dropWhile (fun c => c != '/')).takeWhile (fun c => c == '/')).reverse ++
      (cs.reverse.takeWhile (fun c => c != '/')).reverse, ?_⟩
    calc cs = cs.reverse.reverse := (List.reverse_reverse cs).symm
    _ = (cs.reverse.takeWhile (fun c => c != '/') ++
          cs.reverse.dropWhile (fun c => c != '/')).reverse := by rw [hsplit]
    _ = (cs.reverse.dropWhile (fun c => c != '/')).reverse ++
          (cs.reverse.takeWhile (fun c => c != '/')).reverse := by rw [List.reverse_append]
    _ = ((cs.reverse.dropWhile (fun c => c != '/')).takeWhile (fun c => c == '/') ++
          (cs.reverse.dropWhile (fun c => c != '/')).dropWhile (fun c => c == '/')).reverse ++
          (cs.reverse.takeWhile (fun c => c != '/')).reverse := by rw [hsplit2]
    _ = _ := by rw [List.reverse_append, List.append_assoc]

/-- `dirname` strictly shortens every nonempty relative path. -/
theorem dirnameAux_length_lt (cs : List Char) (hne : cs ≠ [])
    (hrel : cs.head? ≠ some '/') : (dirnameAux cs).length < cs.length := by
  cases hhr : cs.reverse.dropWhile (fun c => c != '/') with
  | nil =>
    unfold dirnameAux
    rw [hhr]
    simp only [List.reverse_nil, List.dropWhile_nil]
    rw [if_neg (by simp)]
    simpa using List.length_pos.mpr hne
  | cons c t =>
    have hc : (c != '/') = false := dropWhile_head_false _ _ c t hhr
    have hc' : c = '/' := by simpa using hc
    by_cases hb : (cs.reverse.dropWhile (fun c => c != '/')).reverse ≠ [] ∧
        (cs.reverse.dropWhile (fun c => c != '/')).reverse.all (fun c => c == '/')
    · exfalso
      obtain ⟨rest, hcs⟩ := dirnameAux_append cs
      unfold dirnameAux at hcs
      rw [if_pos hb] at hcs
      obtain ⟨hne2, hall⟩ := hb
      obtain ⟨d, ds, hd⟩ := List.exists_cons_of_ne_nil hne2
      have hdmem : d ∈ (cs.reverse.dropWhile (fun c => c != '/')).reverse := by
        rw [hd]; exact List.mem_cons_self d ds
      have hdslash : d = '/' := by
        have := List.all_eq_true.mp hall d hdmem
        simpa using this
      rw [hd] at hcs
      rw [hcs] at hrel
      simp [hdslash] at hrel
    · unfold dirnameAux
      rw [if_neg hb, hhr]
      have h1 : ((c :: t).dropWhile (fun c => c == '/')).length ≤ t.length := by
        rw [List.dropWhile_cons, if_pos (by simp [hc'])]
        exact dropWhile_length_le _ t
      have h2 : (c :: t).length ≤ cs.length := by
        calc (c :: t).length = (cs.reverse.dropWhile (fun c => c != '/')).length := by
              rw [hhr]
        _ ≤ cs.reverse.length := dropWhile_length_le _ _
        _ = cs.length := List.length_reverse cs
      simp only [List.length_reverse]
      have : t.length < (c :: t).length := by simp
      omega

/-- `dirname` maps relative paths to relative paths. -/
theorem dirnameAux_relative (cs : List Char) (hrel : cs.head? ≠ some '/') :
    (dirnameAux cs).head? ≠ some '/' := by
  obtain ⟨rest, hcs⟩ := dirnameAux_append cs
  cases h : dirnameAux cs with
  | nil => simp
  | cons d ds =>
    rw [h] at hcs
    rw [hcs] at hrel
    simpa using hrel

theorem dirname_empty : dirname ⟨[]⟩ = ⟨[]⟩ := by rfl

theorem dirname_length_le (p : String) (hrel : relPath p) :
    (dirname p).length ≤ p.length := by
  by_cases hne : p.data = []
  · show (dirnameAux p.data).length ≤ p.data.length
    rw [hne]
    rfl
  · exact Nat.le_of_lt (dirnameAux_length_lt p.data hne hrel)

theorem sumLen_map_dirname_le (l : List String) (hrel : ∀ p ∈ l, relPath p) :
    sumLen (l.map dirname) ≤ sumLen l := by
  induction l with
  | nil => simp [sumLen]
  | cons q qs ihq =>
    have h1 : (dirname q).length ≤ q.length :=
      dirname_length_le q (hrel q (List.mem_cons_self q qs))
    have h2 := ihq (fun r hr => hrel r (List.mem_cons_of_mem q hr))
    simp only [sumLen, List.map_cons, List.map_map, List.sum_cons] at *
    omega

theorem sumLen_map_dirname_lt (l : List String) (hrel : ∀ p ∈ l, relPath p)
    (hex : ∃ p ∈ l, p.data ≠ []) : sumLen (l.map dirname) < sumLen l := by
  induction l with
  | nil => simp at hex
  | cons p ps ih =>
    have hrelp : relPath p := hrel p (List.mem_cons_self p ps)
    have hrelps : ∀ q ∈ ps, relPath q := fun q hq => hrel q (List.mem_cons_of_mem p hq)
    by_cases hpe : p.data = []
    · obtain ⟨q, hq, hqe⟩ := hex
      have hqps : q ∈ ps := by
        cases List.mem_cons.mp hq with
        | inl h => exact absurd (h ▸ hpe) hqe
        | inr h => exact h
      have ihlt := ih hrelps ⟨q, hqps, hqe⟩
      have hple : (dirname p).length ≤ p.length := dirname_length_le p hrelp
      simp only [sumLen, List.map_cons, List.map_map, List.sum_cons] at *
      omega
    · have hplt : (dirname p).length < p.length := dirnameAux_length_lt p.data hpe hrelp
      have hle : sumLen (ps.map dirname) ≤ sumLen ps := sumLen_map_dirname_le ps hrelps
      simp only [sumLen, List.map_cons, List.map_map, List.sum_cons] at *
      omega

theorem sumLen_sublist_le {l1 l2 : List String} (h : l1.Sublist l2) :
    sumLen l1 ≤ sumLen l2 := by
  induction h with
  | slnil => exact Nat.le_refl _
  | cons a _ ih =>
    simp only [sumLen, List.map_cons, List.sum_cons] at *
    omega
  | cons₂ a _ ih =>
    simp only [sumLen, List.map_cons, List.sum_cons] at *
    omega

/-- Sufficient fuel: on a nonempty list of relative paths, the resolver
completes and returns a string. -/
theorem findRootDirAux_total : ∀ (fuel : Nat) (l : List String), l ≠ [] →
    (∀ p ∈ l, relPath p) → sumLen l < fuel →
    ∃ s, findRootDirAux fuel l = some (some s) := by
  intro fuel
  induction fuel with
  | zero => intro l _ _ h; omega
  | succ n ih =>
    intro l hne hrel hfuel
    have hreld : ∀ q ∈ (l.map dirname).dedup, relPath q := by
      intro q hq
      obtain ⟨p, hp, hpq⟩ := List.mem_map.mp (List.mem_dedup.mp hq)
      subst hpq
      exact dirnameAux_relative p.data (hrel p hp)
    rcases hdd : (l.map dirname).dedup with _ | ⟨d1, _ | ⟨d2, rest⟩⟩
    · exfalso
      obtain ⟨p, ps, hp⟩ := List.exists_cons_of_ne_nil hne
      have : dirname p ∈ (l.map dirname).dedup :=
        List.mem_dedup.mpr (List.mem_map_of_mem dirname (hp ▸ List.mem_cons_self p ps))
      rw [hdd] at this
      simp at this
    · exact ⟨d1, by simp [findRootDirAux, hdd]⟩
    · have hnodup := List.nodup_dedup (l.map dirname)
      rw [hdd] at hnodup
      have hd12 : d1 ≠ d2 := by
        have := List.nodup_cons.mp hnodup
        exact fun h => this.1 (h ▸ List.mem_cons_self d2 rest)
      have hex : ∃ p ∈ l, p.data ≠ [] := by
        by_contra hno
        push_neg at hno
        have hall : ∀ d ∈ (l.map dirname).dedup, d = dirname ⟨[]⟩ := by
          intro d hd
          obtain ⟨p, hp, hpd⟩ := List.mem_map.mp (List.mem_dedup.mp hd)
          have : p.data = [] := hno p hp
          have hp0 : p = ⟨[]⟩ := by
            cases p; simp_all
          rw [← hpd, hp0]
        have h1 := hall d1 (hdd ▸ List.mem_cons_self d1 (d2 :: rest))
        have h2 := hall d2 (hdd ▸ List.mem_cons_of_mem d1 (List.mem_cons_self d2 rest))
        exact hd12 (h1.trans h2.symm)
      have hlt : sumLen (d1 :: d2 :: rest) < sumLen l := by
        calc sumLen (d1 :: d2 :: rest) = sumLen (l.map dirname).dedup := by rw [hdd]
        _ ≤ sumLen (l.map dirname) := sumLen_sublist_le (List.dedup_sublist _)
        _ < sumLen l := sumLen_map_dirname_lt l hrel hex
      have hreld2 : ∀ q ∈ (d1 :: d2 :: rest), relPath q := by
        intro q hq; exact hreld q (hdd ▸ hq)
      obtain ⟨s, hs⟩ := ih (d1 :: d2 :: rest) (by simp) hreld2 (by omega)
      exact ⟨s, by rw [findRootDirAux, hdd]; exact hs⟩

/-- C4 (counterexample): on `{"a/b/img1.jpg", "a/b/c/img2.jpg"}` the
resolver does not return `"a"`: the parent sets climb
`{"a/b","a/b/c"} → {"a","a/b"} → {"","a"} → {""}` and the call returns
the empty string. -/
theorem c4_counterexample :
    find_root_dir ["a/b/img1.jpg", "a/b/c/img2.jpg"] ≠ some (some "a") := by
  decide

/-- C4 (amended): on `{"a/b/img1.jpg", "a/b/c/img2.jpg"}` the climbing
algorithm terminates and returns `""`, one level above the `"a"` the
claim expects (and two above the files' true deepest common directory
`"a/b"`). -/
theorem c4_root_dir_value :
    find_root_dir ["a/b/img1.jpg", "a/b/c/img2.jpg"] = some (some "") := by
  decide

/-- C10: for every nonempty collection of relative paths the resolver
terminates (within the canonical fuel) and returns a string rather than
the `None` failure signal, so the callers' "Unable to find the root dir"
branches cannot fire for nonempty sequences of relative paths. -/
theorem c10_root_dir_total (l : List String) (hne : l ≠ [])
    (hrel : ∀ p ∈ l, relPath p) : ∃ s, find_root_dir l = some (some s) :=
  findRootDirAux_total (sumLen l + 1) l hne hrel (Nat.lt_succ_self _)

/-- C10 (witness): the totality theorem applied to a concrete one-path
collection. -/
theorem c10_root_dir_total_witness :
    ∃ s, find_root_dir ["a/b/x.jpg"] = some (some s) :=
  c10_root_dir_total ["a/b/x.jpg"] (by decide)
    (fun p hp => by
      have : p = "a/b/x.jpg" := by simpa using hp
      rw [this]
      decide)

/-! ### Image descriptors and sequence grouping

`types.py` is not under `src/`, so the descriptor record itself is
modelled from the spec's data model (path, filename, capture timestamp,
optional sequence identifier, optional heading); capture timestamps are
modelled as naturals, ordered as the source orders the underlying
values.  Python dictionaries are modelled as insertion-ordered
association lists with overwriting assignment. -/

/-- Modelled from the spec: `FinalImageDescription` (types.py, not in
src/) — an image descriptor with the filename field stripped. -/
structure FinalImageDescription where
  path : String
  captureTime : Nat
  sequenceUUID : Option String
  heading : Option Int
deriving DecidableEq

/-- Modelled from the spec: `ImageDescriptionJSON` (types.py, not in
src/) — one image's metadata record. -/
structure ImageDescription where
  path : String
  filename : String
  captureTime : Nat
  sequenceUUID : Option String
  heading : Option Int
deriving DecidableEq

/-- `{**desc}` followed by `del desc_without_filename["filename"]`. -/
def stripFilename (d : ImageDescription) : FinalImageDescription :=
  ⟨d.path, d.captureTime, d.sequenceUUID, d.heading⟩

/-- Embedding of `os.path.join` for two POSIX path segments. -/
def pathJoin (a b : String) : String :=
  if b.data.head? = some '/' then b
  else if a = "" ∨ a.data.getLast? = some '/' then ⟨a.data ++ b.data⟩
  else ⟨a.data ++ '/' :: b.data⟩

/-- One grouped sequence: Python dict from joined relative path to the
filename-stripped descriptor, in insertion order. -/
abbrev SequenceMap := List (String × FinalImageDescription)

/-- The grouping result: Python dict from sequence identifier to
sequence, in insertion order. -/
abbrev SequenceGroups := List (String × SequenceMap)

/-- Python dict assignment `d[k] = v`: overwrite in place or append. -/
def assocSet {α : Type} : List (String × α) → String → α → List (String × α)
  | [], k, v => [(k, v)]
  | (k', v') :: rest, k, v =>
    if k' = k then (k, v) :: rest else (k', v') :: assocSet rest k v

/-- `sequences.setdefault(uuid, {})` followed by `sequence[key] = v`. -/
def addToSequences (m : SequenceGroups) (uuid key : String)
    (v : FinalImageDescription) : SequenceGroups :=
  match m with
  | [] => [(uuid, [(key, v)])]
  | (u, s) :: rest =>
    if u = uuid then (u, assocSet s key v) :: rest
    else (u, s) :: addToSequences rest uuid key v

/-- `desc.get("SequenceUUID", missing_sequence_uuid)`. -/
def descKey (missing : String) (d : ImageDescription) : String :=
  d.sequenceUUID.getD missing

/-- `os.path.join(desc["path"], desc["filename"])`. -/
def joinedKey (d : ImageDescription) : String := pathJoin d.path d.filename

/-- The map entry produced for one descriptor. -/
def descEntry (d : ImageDescription) : String × FinalImageDescription :=
  (joinedKey d, stripFilename d)

/-- Embedding of `_group_sequences_by_uuid` (lines 44-57).  The single
`str(uuid.uuid4())` generated before the loop is the parameter
`missing`: every descriptor lacking a sequence identifier shares it. -/
def group_sequences_by_uuid (missing : String)
    (descs : List ImageDescription) : SequenceGroups :=
  descs.foldl
    (fun m d => addToSequences m (descKey missing d) (joinedKey d) (stripFilename d)) []

/-- The sequence stored under identifier `u` (empty if absent). -/
def seqEntries (m : SequenceGroups) (u : String) : SequenceMap :=
  (m.lookup u).getD []

/-- Every joined path key stored anywhere in the grouping. -/
def allInnerKeys (m : SequenceGroups) : List String :=
  m.bind (fun p => p.2.map Prod.fst)

theorem assocSet_eq_append {α : Type} (s : List (String × α)) (k : String) (v : α)
    (h : k ∉ s.map Prod.fst) : assocSet s k v = s ++ [(k, v)] := by
  induction s with
  | nil => rfl
  | cons kv rest ih =>
    obtain ⟨k', v'⟩ := kv
    simp only [List.map_cons, List.mem_cons] at h
    push_neg at h
    rw [assocSet, if_neg (fun he => h.1 he.symm)]
    rw [ih h.2]
    simp

theorem assocSet_keys {α : Type} (s : List (String × α)) (k : String) (v : α)
    (x : String) (hx : x ∈ (assocSet s k v).map Prod.fst) :
    x ∈ s.map Prod.fst ∨ x = k := by
  induction s with
  | nil => simpa [assocSet] using hx
  | cons kv rest ih =>
    obtain ⟨k', v'⟩ := kv
    by_cases he : k' = k
    · rw [assocSet, if_pos he] at hx
      simp only [List.map_cons, List.mem_cons] at hx ⊢
      rcases hx with h | h
      · exact Or.inr h
      · exact Or.inl (Or.inr h)
    · rw [assocSet, if_neg he] at hx
      simp only [List.map_cons, List.mem_cons] at hx ⊢
      rcases hx with h | h
      · exact Or.inl (Or.inl h)
      · rcases ih h with h' | h'
        · exact Or.inl (Or.inr h')
        · exact Or.inr h'

theorem seqEntries_nil (u : String) : seqEntries [] u = [] := rfl

theorem seqEntries_cons (u0 : String) (s0 : SequenceMap) (rest : SequenceGroups)
    (u : String) : seqEntries ((u0, s0) :: rest) u =
      if u = u0 then s0 else seqEntries rest u := by
  by_cases h : u = u0
  · simp [seqEntries, List.lookup, h]
  · simp [seqEntries, List.lookup, beq_false_of_ne h, h]

theorem seqEntries_addToSequences (m : SequenceGroups) (u k : String)
    (v : FinalImageDescription) (u' : String) :
    seqEntries (addToSequences m u k v) u' =
      if u' = u then assocSet (seqEntries m u) k v else seqEntries m u' := by
  induction m with
  | nil =>
    by_cases h : u' = u
    · simp [addToSequences, seqEntries_cons, seqEntries_nil, h, assocSet]
    · simp [addToSequences, seqEntries_cons, seqEntries_nil, h]
  | cons p rest ih =>
    obtain ⟨u0, s0⟩ := p
    by_cases h0 : u0 = u
    · subst h0
      rw [addToSequences, if_pos rfl]
      by_cases h : u' = u0
      · simp [seqEntries_cons, h]
      · simp [seqEntries_cons, h]
    · rw [addToSequences, if_neg h0]
      by_cases h : u' = u0
      · have hne : ¬ u' = u := fun hu => h0 (h.symm.trans hu)
        rw [seqEntries_cons u0 s0 (addToSequences rest u k v) u', if_pos h, if_neg hne,
          seqEntries_cons u0 s0 rest u', if_pos h]
      · rw [seqEntries_cons u0 s0 (addToSequences rest u k v) u', if_neg h, ih]
        by_cases hu : u' = u
        · rw [if_pos hu, if_pos hu, seqEntries_cons u0 s0 rest u,
            if_neg (fun hc => h0 hc.symm)]
        · rw [if_neg hu, if_neg hu, seqEntries_cons u0 s0 rest u', if_neg h]

theorem mem_seqEntries_keys (m : SequenceGroups) (u : String) (x : String)
    (hx : x ∈ (seqEntries m u).map Prod.fst) : x ∈ allInnerKeys m := by
  induction m with
  | nil => simp [seqEntries_nil] at hx
  | cons p rest ih =>
    obtain ⟨u0, s0⟩ := p
    rw [seqEntries_cons] at hx
    by_cases h : u = u0
    · rw [if_pos h] at hx
      simp only [allInnerKeys, List.cons_bind, List.mem_append]
      exact Or.inl hx
    · rw [if_neg h] at hx
      simp only [allInnerKeys, List.cons_bind, List.mem_append]
      exact Or.inr (ih hx)

theorem allInnerKeys_addToSequences (m : SequenceGroups) (u k : String)
    (v : FinalImageDescription) (x : String)
    (hx : x ∈ allInnerKeys (addToSequences m u k v)) :
    x ∈ allInnerKeys m ∨ x = k := by
  induction m with
  | nil =>
    simp only [addToSequences, allInnerKeys, List.cons_bind, List.nil_bind,
      List.append_nil, List.map_cons, List.map_nil] at hx
    right
    simpa using hx
  | cons p rest ih =>
    obtain ⟨u0, s0⟩ := p
    by_cases h0 : u0 = u
    · rw [addToSequences, if_pos h0] at hx
      simp only [allInnerKeys, List.cons_bind, List.mem_append] at hx ⊢
      rcases hx with h | h
      · rcases assocSet_keys s0 k v x h with h' | h'
        · exact Or.inl (Or.inl h')
        · exact Or.inr h'
      · exact Or.inl (Or.inr h)
    · rw [addToSequences, if_neg h0] at hx
      simp only [allInnerKeys, List.cons_bind, List.mem_append] at hx ⊢
      rcases hx with h | h
      · exact Or.inl (Or.inl h)
      · rcases ih h with h' | h'
        · exact Or.inl (Or.inr h')
        · exact Or.inr h'

theorem group_foldl (missing : String) :
    ∀ (descs : List ImageDescription) (m : SequenceGroups),
    (∀ d ∈ descs, joinedKey d ∉ allInnerKeys m) →
    (descs.map joinedKey).Nodup → ∀ u,
    seqEntries (descs.foldl
      (fun m d => addToSequences m (descKey missing d) (joinedKey d) (stripFilename d)) m) u =
      seqEntries m u ++
        (descs.filter (fun d => descKey missing d == u)).map descEntry := by
  intro descs
  induction descs with
  | nil => intro m _ _ u; simp
  | cons d ds ih =>
    intro m hkeys hnodup u
    have hkm : joinedKey d ∉ allInnerKeys m := hkeys d (List.mem_cons_self d ds)
    simp only [List.map_cons, List.nodup_cons] at hnodup
    obtain ⟨hdk, hnodup'⟩ := hnodup
    have hm' : ∀ d' ∈ ds, joinedKey d' ∉
        allInnerKeys (addToSequences m (descKey missing d) (joinedKey d) (stripFilename d)) := by
      intro d' hd' hmem
      rcases allInnerKeys_addToSequences _ _ _ _ _ hmem with h | h
      · exact hkeys d' (List.mem_cons_of_mem d hd') h
      · exact hdk (h ▸ List.mem_map_of_mem joinedKey hd')
    rw [List.foldl_cons, ih _ hm' hnodup' u, seqEntries_addToSequences]
    by_cases hu : u = descKey missing d
    · rw [if_pos hu]
      have hfresh : joinedKey d ∉ (seqEntries m (descKey missing d)).map Prod.fst :=
        fun h => hkm (mem_seqEntries_keys m _ _ h)
      rw [assocSet_eq_append _ _ _ hfresh]
      have hbeq : (descKey missing d == u) = true := by
        simp [hu]
      simp only [List.filter_cons, hbeq, List.map_cons, if_true, hu]
      simp [descEntry, List.append_assoc]
    · rw [if_neg hu]
      have hbeq : (descKey missing d == u) = false := by
        simp
        exact fun he => hu he.symm
      simp only [List.filter_cons, hbeq]
      simp

/-- C5: with descriptor identities unique (pairwise distinct joined
path/filename keys, as the spec's data model requires), grouping yields,
for every sequence identifier `u`, exactly the descriptors whose
sequence identifier (or, when absent, the one shared freshly generated
identifier `missing`) equals `u`, in order, each keyed by
`os.path.join(path, filename)` and mapped to the descriptor with its
filename field removed. -/
theorem c5_grouping (missing : String) (descs : List ImageDescription)
    (hnodup : (descs.map joinedKey).Nodup) (u : String) :
    seqEntries (group_sequences_by_uuid missing descs) u =
      (descs.filter (fun d => descKey missing d == u)).map descEntry := by
  have h := group_foldl missing descs [] (by simp [allInnerKeys]) hnodup u
  simpa [group_sequences_by_uuid, seqEntries_nil] using h

/-- C5 (witness): two descriptors without a sequence identifier land in
the one shared fresh identifier, keyed by joined paths, filename
stripped; a third descriptor with an explicit identifier lands apart. -/
theorem c5_grouping_witness :
    seqEntries (group_sequences_by_uuid "fresh"
        [⟨"a/b", "1.jpg", 10, none, some 0⟩,
         ⟨"a/b", "2.jpg", 11, none, some 90⟩,
         ⟨"a/c", "3.jpg", 12, some "s1", some 180⟩]) "fresh" =
      [("a/b/1.jpg", ⟨"a/b", 10, none, some 0⟩),
       ("a/b/2.jpg", ⟨"a/b", 11, none, some 90⟩)] := by
  have h := c5_grouping "fresh"
    [⟨"a/b", "1.jpg", 10, none, some 0⟩,
     ⟨"a/b", "2.jpg", 11, none, some 90⟩,
     ⟨"a/c", "3.jpg", 12, some "s1", some 180⟩] (by decide) "fresh"
  rw [h]
  decide

/-! ### Chunk size computation -/

/-- `MIN_CHUNK_SIZE = 1024 * 1024 * 2` (uploader.py line 23). -/
def MIN_CHUNK_SIZE : Nat := 1024 * 1024 * 2

/-- `MAX_CHUNK_SIZE = 1024 * 1024 * 16` (uploader.py line 24). -/
def MAX_CHUNK_SIZE : Nat := 1024 * 1024 * 16

/-- The chunk-size computation of `_zip_and_upload_single_sequence`
(lines 404-405) and `upload_zipfile` (lines 242-243):
`min(max(int(entity_size / count), MIN_CHUNK_SIZE), MAX_CHUNK_SIZE)`,
with the truncating division on byte counts embedded as `Nat` floor
division. -/
def compute_chunk_size (entity_size image_count : Nat) : Nat :=
  min (max (entity_size / image_count) MIN_CHUNK_SIZE) MAX_CHUNK_SIZE

/-- C6: for a positive image count the chunk size is the clamp of the
average image size into `[MIN_CHUNK_SIZE, MAX_CHUNK_SIZE]`, hence always
within those bounds, and collapses to `MIN_CHUNK_SIZE` whenever the
average is at or below the minimum (in particular near zero). -/
theorem c6_chunk_size (entity_size image_count : Nat) (h : 0 < image_count) :
    compute_chunk_size entity_size image_count =
      min (max (entity_size / image_count) MIN_CHUNK_SIZE) MAX_CHUNK_SIZE ∧
    MIN_CHUNK_SIZE ≤ compute_chunk_size entity_size image_count ∧
    compute_chunk_size entity_size image_count ≤ MAX_CHUNK_SIZE ∧
    (entity_size / image_count ≤ MIN_CHUNK_SIZE →
      compute_chunk_size entity_size image_count = MIN_CHUNK_SIZE) := by
  refine ⟨rfl, ?_, ?_, ?_⟩
  · exact le_min (le_max_right _ _) (by norm_num [MIN_CHUNK_SIZE, MAX_CHUNK_SIZE])
  · exact min_le_right _ _
  · intro h2
    rw [compute_chunk_size, max_eq_right h2]
    exact min_eq_left (by norm_num [MIN_CHUNK_SIZE, MAX_CHUNK_SIZE])

/-- C6 (witness): a 5-byte archive with 2 images clamps to the minimum
chunk size, and the bounds hold there. -/
theorem c6_chunk_size_witness :
    compute_chunk_size 5 2 = MIN_CHUNK_SIZE ∧
    MIN_CHUNK_SIZE ≤ compute_chunk_size 5 2 ∧
    compute_chunk_size 5 2 ≤ MAX_CHUNK_SIZE := by
  obtain ⟨-, hlo, hhi, hmin⟩ := c6_chunk_size 5 2 (by decide)
  exact ⟨hmin (by norm_num [MIN_CHUNK_SIZE]), hlo, hhi⟩

/-! ### The progress notifier -/

/-- The static per-sequence context passed to `Notifier.__init__`
(lines 407-415). -/
structure SequenceInfoCtx where
  sequence_path : String
  sequence_uuid : String
  total_bytes : Nat
  sequence_idx : Nat
  total_sequences : Nat
deriving DecidableEq

/-- The payload of one `ipc.send("upload", payload)` event
(lines 189-194): chunk size, cumulative uploaded bytes, and the static
context merged in. -/
structure ProgressPayload where
  chunk_size : Nat
  uploaded_bytes : Nat
  ctx : SequenceInfoCtx
deriving DecidableEq

/-- Embedding of the `Notifier` class state (lines 182-185). -/
structure Notifier where
  uploaded_bytes : Nat
  sequence_info : SequenceInfoCtx

/-- `Notifier.notify_progress` (lines 187-194): add the chunk length to
the accumulator and emit a payload carrying it. -/
def notify_progress (n : Notifier) (chunk : List Nat) : Notifier × ProgressPayload :=
  (⟨n.uploaded_bytes + chunk.length, n.sequence_info⟩,
   ⟨chunk.length, n.uploaded_bytes + chunk.length, n.sequence_info⟩)

/-- The sequence of payloads emitted for a run of accepted chunks. -/
def runNotifier (n : Notifier) : List (List Nat) → List ProgressPayload
  | [] => []
  | c :: cs =>
    let r := notify_progress n c
    r.2 :: runNotifier r.1 cs

/-- The seeding `notifier.uploaded_bytes = offset` performed in
`_upload_zipfile_fp` (line 347) after `fetch_offset`. -/
def seedNotifier (offset : Nat) (info : SequenceInfoCtx) : Notifier :=
  ⟨offset, info⟩

theorem runNotifier_getElem :
    ∀ (chunks : List (List Nat)) (n : Notifier) (i : Nat) (c : List Nat),
    chunks[i]? = some c →
    (runNotifier n chunks)[i]? =
      some ⟨c.length,
        n.uploaded_bytes + ((chunks.take (i + 1)).map List.length).sum,
        n.sequence_info⟩ := by
  intro chunks
  induction chunks with
  | nil => intro n i c h; simp at h
  | cons c0 cs ih =>
    intro n i c h
    cases i with
    | zero =>
      simp only [List.getElem?_cons_zero, Option.some.injEq] at h
      subst h
      simp [runNotifier, notify_progress]
    | succ i =>
      simp only [List.getElem?_cons_succ] at h
      have := ih ⟨n.uploaded_bytes + c0.length, n.sequence_info⟩ i c h
      simp only [runNotifier, notify_progress, List.getElem?_cons_succ]
      rw [this]
      simp only [List.take_succ_cons, List.map_cons, List.sum_cons]
      congr 1
      congr 1
      omega

/-- C9: the notifier's accumulator is seeded with the server resume
offset `k` before any chunk flows, and the `i`-th emitted payload
carries the `i`-th chunk's size, a cumulative value equal to `k` plus
the total size of the first `i+1` accepted chunks, and the unchanged
static per-sequence context. -/
theorem c9_notifier (offset : Nat) (info : SequenceInfoCtx)
    (chunks : List (List Nat)) :
    (seedNotifier offset info).uploaded_bytes = offset ∧
    ∀ (i : Nat) (c : List Nat), chunks[i]? = some c →
      (runNotifier (seedNotifier offset info) chunks)[i]? =
        some ⟨c.length, offset + ((chunks.take (i + 1)).map List.length).sum, info⟩ :=
  ⟨rfl, fun i c h => runNotifier_getElem chunks (seedNotifier offset info) i c h⟩

/-- C9 (witness): resuming at offset 7, the second of two chunks (sizes
2 and 1) is reported with cumulative count `7 + 2 + 1 = 10` and the
static context intact. -/
theorem c9_notifier_witness :
    (runNotifier (seedNotifier 7 ⟨"p", "u", 100, 0, 1⟩) [[4, 5], [6]])[1]? =
      some ⟨1, 10, ⟨"p", "u", 100, 0, 1⟩⟩ := by
  have h := (c9_notifier 7 ⟨"p", "u", 100, 0, 1⟩ [[4, 5], [6]]).2 1 [6] (by decide)
  simpa using h

/-! ### Descriptor validation and the orchestrator's fail-fast

`_validate_descs` (lines 60-67) validates every descriptor against
`types.ImageDescriptionJSONSchema` (modelled from the spec as the oracle
`schemaOk`, since `types.py` is not under `src/`), then checks
`os.path.isfile` (oracle `isfile`) for every referenced file, raising
`RuntimeError(f"Image path {abspath} not found")` on the first missing
one.  `upload_image_dir_and_description` (lines 128-162) filters for
descriptors carrying a heading, validates, and only then groups and
uploads. -/

/-- The two failure modes of `_validate_descs`: a `jsonschema`
validation error for a descriptor, or the `RuntimeError` for a missing
file. -/
inductive ValidationFailure where
  | schemaError (d : ImageDescription)
  | runtimeError (msg : String)
deriving DecidableEq

/-- `abspath = os.path.join(image_dir, os.path.join(path, filename))`. -/
def descAbspath (image_dir : String) (d : ImageDescription) : String :=
  pathJoin image_dir (pathJoin d.path d.filename)

/-- Embedding of `_validate_descs`: first loop raises on the first
schema violation, second loop on the first missing file. -/
def validate_descs (isfile : String → Bool) (schemaOk : ImageDescription → Bool)
    (image_dir : String) (descs : List ImageDescription) :
    Except ValidationFailure Unit :=
  match descs.find? (fun d => !schemaOk d) with
  | some d => .error (.schemaError d)
  | none =>
    match descs.find? (fun d => !isfile (descAbspath image_dir d)) with
    | some d =>
      .error (.runtimeError ("Image path " ++ descAbspath image_dir d ++ " not found"))
    | none => .ok ()

/-- Embedding of the validation-and-grouping front of
`upload_image_dir_and_description`: the heading filter (line 137),
validation (line 138), then grouping (line 140); a validation failure
propagates before any grouping (and hence before any upload) happens. -/
def upload_image_dir_and_description (isfile : String → Bool)
    (schemaOk : ImageDescription → Bool) (image_dir missing : String)
    (descs : List ImageDescription) : Except ValidationFailure SequenceGroups :=
  let image_descs := descs.filter (fun d => d.heading.isSome)
  match validate_descs isfile schemaOk image_dir image_descs with
  | .error e => .error e
  | .ok _ => .ok (group_sequences_by_uuid missing image_descs)

/-- C8: validation succeeds exactly when every descriptor passes the
schema check and every referenced file exists; with all schemas passing,
the first missing file produces the `RuntimeError` whose message names
its full joined path; and any validation failure makes the orchestrator
fail with that very error, producing no grouping (hence no network
activity) at all. -/
theorem c8_validation :
    (∀ (isfile : String → Bool) (schemaOk : ImageDescription → Bool)
        (dir : String) (descs : List ImageDescription),
      validate_descs isfile schemaOk dir descs = .ok () ↔
        ∀ d ∈ descs, schemaOk d = true ∧ isfile (descAbspath dir d) = true) ∧
    (∀ (isfile : String → Bool) (schemaOk : ImageDescription → Bool)
        (dir : String) (descs : List ImageDescription),
      (∀ d ∈ descs, schemaOk d = true) →
      ∀ d, descs.find? (fun d => !isfile (descAbspath dir d)) = some d →
        validate_descs isfile schemaOk dir descs =
          .error (.runtimeError ("Image path " ++ descAbspath dir d ++ " not found"))) ∧
    (∀ (isfile : String → Bool) (schemaOk : ImageDescription → Bool)
        (dir missing : String) (descs : List ImageDescription) (e : ValidationFailure),
      validate_descs isfile schemaOk dir (descs.filter (fun d => d.heading.isSome)) =
        .error e →
      upload_image_dir_and_description isfile schemaOk dir missing descs = .error e) := by
  refine ⟨?_, ?_, ?_⟩
  · intro isfile schemaOk dir descs
    constructor
    · intro hok d hd
      cases h1 : descs.find? (fun d => !schemaOk d) with
      | some d' => rw [validate_descs, h1] at hok; exact absurd hok (by simp)
      | none =>
        cases h2 : descs.find? (fun d => !isfile (descAbspath dir d)) with
        | some d' => rw [validate_descs, h1, h2] at hok; exact absurd hok (by simp)
        | none =>
          have hs := List.find?_eq_none.mp h1 d hd
          have hf := List.find?_eq_none.mp h2 d hd
          simp only [Bool.not_eq_eq_eq_not, Bool.not_true] at hs hf
          constructor
          · simpa using hs
          · simpa using hf
    · intro hall
      have h1 : descs.find? (fun d => !schemaOk d) = none :=
        List.find?_eq_none.mpr (fun d hd => by simp [(hall d hd).1])
      have h2 : descs.find? (fun d => !isfile (descAbspath dir d)) = none :=
        List.find?_eq_none.mpr (fun d hd => by simp [(hall d hd).2])
      rw [validate_descs, h1, h2]
  · intro isfile schemaOk dir descs hschema d hfind
    have h1 : descs.find? (fun d => !schemaOk d) = none :=
      List.find?_eq_none.mpr (fun d' hd' => by simp [hschema d' hd'])
    rw [validate_descs, h1, hfind]
  · intro isfile schemaOk dir missing descs e hval
    rw [upload_image_dir_and_description, hval]

/-- C8 (witness): with one heading-carrying descriptor whose file is
missing, validation reports the joined path `root/a/b.jpg` and the
orchestrator propagates exactly that error. -/
theorem c8_validation_witness :
    validate_descs (fun _ => false) (fun _ => true) "root"
        [⟨"a", "b.jpg", 0, none, some 1⟩] =
      .error (.runtimeError "Image path root/a/b.jpg not found") ∧
    upload_image_dir_and_description (fun _ => false) (fun _ => true) "root" "m"
        [⟨"a", "b.jpg", 0, none, some 1⟩] =
      .error (.runtimeError "Image path root/a/b.jpg not found") := by
  have h2 := c8_validation.2.1 (fun _ => false) (fun _ => true) "root"
    [⟨"a", "b.jpg", 0, none, some 1⟩] (fun d _ => rfl)
    ⟨"a", "b.jpg", 0, none, some 1⟩ (by decide)
  have hmsg : ("Image path " ++ descAbspath "root" ⟨"a", "b.jpg", 0, none, some 1⟩ ++
      " not found") = "Image path root/a/b.jpg not found" := by decide
  rw [hmsg] at h2
  have hfilter : ([⟨"a", "b.jpg", 0, none, some 1⟩] :
      List ImageDescription).filter (fun d => d.heading.isSome) =
      [⟨"a", "b.jpg", 0, none, some 1⟩] := by decide
  have h3 := c8_validation.2.2 (fun _ => false) (fun _ => true) "root" "m"
    [⟨"a", "b.jpg", 0, none, some 1⟩]
    (.runtimeError "Image path root/a/b.jpg not found") (by rw [hfilter]; exact h2)
  exact ⟨h2, h3⟩

/-! ### Sequence packaging: sort by capture time and hash the stream

`_zip_sequence` (lines 197-226) sorts the file keys with
`file_list.sort(key=lambda path: sequences[path]["CaptureTime"])`
(a stable sort) and then feeds each file's re-encoded image bytes, in
that order, both to the running MD5 and to the archive.  The MD5 digest
is a function of the concatenated byte stream, so the stream is the
content identity we reason about; the byte transform
(`exif_write.ExifEdit(...).dump_image_bytes()`) is an external
collaborator modelled as the oracle `imageBytes`. -/

/-- The sort key relation: ascending capture time of the entry's
descriptor. -/
def byCaptureTime (a b : String × FinalImageDescription) : Prop :=
  a.2.captureTime ≤ b.2.captureTime

instance : DecidableRel byCaptureTime := fun a b =>
  inferInstanceAs (Decidable (a.2.captureTime ≤ b.2.captureTime))

instance : IsTotal (String × FinalImageDescription) byCaptureTime :=
  ⟨fun a b => Nat.le_total a.2.captureTime b.2.captureTime⟩

instance : IsTrans (String × FinalImageDescription) byCaptureTime :=
  ⟨fun _ _ _ => Nat.le_trans⟩

/-- The entry list in upload order: `file_list.sort` by capture time
(insertion sort is stable, like Python's sort). -/
def sortedFileList (s : SequenceMap) : SequenceMap :=
  List.insertionSort byCaptureTime s

/-- The byte stream fed to the MD5 accumulator (and to the archive) by
`_zip_sequence`: the concatenation of each entry's re-encoded image
bytes, read from `os.path.join(image_dir, file)`, in capture-time
order. -/
def zipHashStream (imageBytes : String → List Nat) (image_dir : String)
    (s : SequenceMap) : List Nat :=
  ((sortedFileList s).map (fun e => imageBytes (pathJoin image_dir e.1))).join

theorem eq_of_perm_sorted_keys :
    ∀ (l1 l2 : SequenceMap), l1.Perm l2 →
    l1.Sorted byCaptureTime → l2.Sorted byCaptureTime →
    (l1.map (fun e => e.2.captureTime)).Nodup → l1 = l2 := by
  intro l1
  induction l1 with
  | nil => intro l2 hp _ _ _; exact (hp.symm.eq_nil).symm ▸ rfl
  | cons a t1 ih =>
    intro l2 hp hs1 hs2 hnd
    cases l2 with
    | nil => exact absurd hp.eq_nil (by simp)
    | cons b t2 =>
      have hab : a = b := by
        have hbmem : b ∈ a :: t1 := hp.symm.subset (List.mem_cons_self b t2)
        have hamem : a ∈ b :: t2 := hp.subset (List.mem_cons_self a t1)
        have hba : byCaptureTime b a := by
          rcases List.mem_cons.mp hamem with he | hm
          · exact he ▸ Nat.le_refl _
          · exact List.rel_of_sorted_cons hs2 a hm
        rcases List.mem_cons.mp hbmem with he | hm
        · exact he.symm
        · exfalso
          have hablt : byCaptureTime a b := List.rel_of_sorted_cons hs1 b hm
          have heq : b.2.captureTime = a.2.captureTime :=
            Nat.le_antisymm hba hablt
          simp only [List.map_cons, List.nodup_cons] at hnd
          exact hnd.1 (heq ▸ List.mem_map_of_mem (fun e => e.2.captureTime) hm)
      subst hab
      have ht : t1.Perm t2 := hp.cons_inv
      have := ih t2 ht hs1.of_cons hs2.of_cons
        (by simp only [List.map_cons, List.nodup_cons] at hnd; exact hnd.2)
      rw [this]

/-- C7 (amended): with pairwise distinct capture timestamps, the byte
stream fed to the hash (hence the MD5 content hash) is invariant under
any permutation of the sequence map's iteration order; and changing the
capture-time order of the files changes the byte stream fed to the
hash, witnessed by a two-file sequence whose timestamps are swapped. -/
theorem c7_hash_stream :
    (∀ (imageBytes : String → List Nat) (image_dir : String)
        (s1 s2 : SequenceMap), s1.Perm s2 →
      (s1.map (fun e => e.2.captureTime)).Nodup →
      zipHashStream imageBytes image_dir s1 = zipHashStream imageBytes image_dir s2) ∧
    zipHashStream (fun k => if k = "d/x" then [0] else [1]) "d"
        [("x", ⟨"", 1, none, none⟩), ("y", ⟨"", 2, none, none⟩)] ≠
      zipHashStream (fun k => if k = "d/x" then [0] else [1]) "d"
        [("x", ⟨"", 2, none, none⟩), ("y", ⟨"", 1, none, none⟩)] := by
  constructor
  · intro imageBytes image_dir s1 s2 hperm hnd
    have h1 : (sortedFileList s1).Sorted byCaptureTime :=
      List.sorted_insertionSort byCaptureTime s1
    have h2 : (sortedFileList s2).Sorted byCaptureTime :=
      List.sorted_insertionSort byCaptureTime s2
    have hp : (sortedFileList s1).Perm (sortedFileList s2) :=
      (List.perm_insertionSort byCaptureTime s1).trans
        (hperm.trans (List.perm_insertionSort byCaptureTime s2).symm)
    have hnd' : ((sortedFileList s1).map (fun e => e.2.captureTime)).Nodup :=
      (((List.perm_insertionSort byCaptureTime s1).map
        (fun e => e.2.captureTime)).nodup_iff).mpr hnd
    have := eq_of_perm_sorted_keys _ _ hp h1 h2 hnd'
    unfold zipHashStream
    rw [this]
  · decide

/-- C7 (counterexample): as literally stated ("invariant under any
permutation"), the claim fails when two files share a capture timestamp:
the stable sort then preserves iteration order, so the two orders of the
same two-entry map feed different byte streams (hence different MD5
digests) to the hash. -/
theorem c7_counterexample :
    ([(("x" : String), (⟨"", 5, none, none⟩ : FinalImageDescription)),
      ("y", ⟨"", 5, none, none⟩)]).Perm
      [("y", (⟨"", 5, none, none⟩ : FinalImageDescription)),
       ("x", ⟨"", 5, none, none⟩)] ∧
    zipHashStream (fun k => if k = "d/x" then [0] else [1]) "d"
        [("x", ⟨"", 5, none, none⟩), ("y", ⟨"", 5, none, none⟩)] ≠
      zipHashStream (fun k => if k = "d/x" then [0] else [1]) "d"
        [("y", ⟨"", 5, none, none⟩), ("x", ⟨"", 5, none, none⟩)] := by
  constructor
  · exact List.Perm.swap _ _ _
  · decide

/-- C7 (witness): the invariance applied to a concrete two-entry map
with distinct timestamps and its reversal. -/
theorem c7_hash_stream_witness :
    zipHashStream (fun _ => [7]) "" [("x", ⟨"", 1, none, none⟩),
        ("y", ⟨"", 2, none, none⟩)] =
      zipHashStream (fun _ => [7]) "" [("y", ⟨"", 2, none, none⟩),
        ("x", ⟨"", 1, none, none⟩)] :=
  c7_hash_stream.1 (fun _ => [7]) "" _ _ (List.Perm.swap _ _ _) (by decide)
